import Mathlib

/-!
Verification of the client-side i18n subsystem of the Table-for-Two web
application (file `api-service.js`, i18n IIFE section, and
`static/js/language-fallback.js`), as a shallow embedding in Lean.

JavaScript values reachable by the key walks are modelled by the
inductive type `JVal`: strings, plain nested object literals, numbers
(string lengths), and native built-in values (`builtin`) — the
functions and exotic objects found on the prototype chains of plain
objects, strings and numbers.  Property access is modelled faithfully
for the source's `translation[k]` guard: own fields of an object
literal shadow the prototype; a miss on a plain object finds the
(truthy) `Object.prototype` members; a primitive string exposes its
`length`, its canonical numeric indices (yielding one-character
strings), and its (truthy) `String.prototype` / `Object.prototype`
members; a number exposes its (truthy) prototype members.  Property
access *on* a native built-in value itself is not modelled (it yields
`none`); no theorem below depends on it — every universal statement
whose walk could enter a built-in carries a hypothesis excluding such
segments, and every concrete evaluation stops before one.  String
indices and lengths are modelled by character count, which agrees with
JavaScript's UTF-16 count on every string in these tables (all code
points are in the Basic Multilingual Plane).  JavaScript truthiness:
objects and built-ins are truthy, a string is truthy iff nonempty, a
number iff nonzero, `undefined` (modelled as `Option.none`) is falsy.
-/

namespace I18n

/-- A JavaScript value reachable by the translation key walks: a string,
an object literal (an ordered field list), a number, or a native
built-in (a prototype-chain function or exotic object, tagged by the
property name it was found under). -/
inductive JVal where
  | str : String → JVal
  | obj : List (String × JVal) → JVal
  | num : Nat → JVal
  | builtin : String → JVal

/-- First-match own-field lookup in an object literal.  Own fields
shadow the prototype chain, so this is the first stage of a property
access on a plain object; it is also exactly the spec's (§4.2) notion
of a mapping "containing" a segment. -/
def lookupPairs : List (String × JVal) → String → Option JVal
  | [], _ => none
  | (k0, v) :: rest, k => if k = k0 then some v else lookupPairs rest k

/-- The own property names of `Object.prototype`, inherited by every
plain object literal; all of them are truthy (functions, and the
`__proto__` accessor yielding `Object.prototype` itself). -/
def objectProtoNames : List String :=
  ["constructor", "hasOwnProperty", "isPrototypeOf", "propertyIsEnumerable",
   "toLocaleString", "toString", "valueOf", "__defineGetter__",
   "__defineSetter__", "__lookupGetter__", "__lookupSetter__", "__proto__"]

/-- The method names of `String.prototype` (including legacy HTML and
trim aliases), inherited by every primitive string; all truthy
(functions). -/
def stringProtoNames : List String :=
  ["at", "charAt", "charCodeAt", "codePointAt", "concat", "endsWith",
   "includes", "indexOf", "lastIndexOf", "localeCompare", "match", "matchAll",
   "normalize", "padEnd", "padStart", "repeat", "replace", "replaceAll",
   "search", "slice", "split", "startsWith", "substr", "substring",
   "toLocaleLowerCase", "toLocaleUpperCase", "toLowerCase", "toUpperCase",
   "trim", "trimEnd", "trimStart", "trimLeft", "trimRight", "anchor", "big",
   "blink", "bold", "fixed", "fontcolor", "fontsize", "italics", "link",
   "small", "strike", "sub", "sup", "isWellFormed", "toWellFormed"]

/-- The method names of `Number.prototype`, inherited by every number;
all truthy (functions). -/
def numberProtoNames : List String :=
  ["toExponential", "toFixed", "toPrecision", "toLocaleString", "toString",
   "valueOf"]

/-- Every property name that JavaScript exposes on the non-object
values of a key walk: `length`, and the prototype members of plain
objects, strings and numbers. -/
def reservedJsNames : List String :=
  "length" :: (objectProtoNames ++ stringProtoNames ++ numberProtoNames)

/-- Value of a canonical decimal digit string. -/
def digitsToNat : List Char → Nat → Nat
  | [], acc => acc
  | c :: rest, acc => digitsToNat rest (acc * 10 + (c.toNat - '0'.toNat))

/-- Whether `k` is a canonical numeric property name (the form
`String(n)` for a natural `n`): nonempty, all digits, no redundant
leading zero.  JavaScript string indexing `s[k]` applies exactly to
such `k`. -/
def isCanonicalIndexStr (k : String) : Bool :=
  k != "" && k.data.all (fun c => c.isDigit)
    && (k == "0" || k.data.headD '0' != '0')

/-- JS property access `s[k]` on a primitive string: `length`, a
canonical in-range numeric index (the character at that position, as a
one-character string), or an inherited prototype member. -/
def jsStrGet (s : String) (k : String) : Option JVal :=
  if k = "length" then some (.num s.data.length)
  else if isCanonicalIndexStr k = true ∧ digitsToNat k.data 0 < s.data.length then
    some (.str (String.mk [s.data.getD (digitsToNat k.data 0) ' ']))
  else if k ∈ stringProtoNames ∨ k ∈ objectProtoNames then some (.builtin k)
  else none

/-- JS property access on a plain object literal: own fields first,
then the `Object.prototype` members. -/
def jsObjGet (kvs : List (String × JVal)) (k : String) : Option JVal :=
  match lookupPairs kvs k with
  | some v => some v
  | none => if k ∈ objectProtoNames then some (.builtin k) else none

/-- JS property access `v[k]` on a modelled value.  Access on a native
built-in value is outside the modelled boundary and yields `none`; no
theorem below depends on that case. -/
def jsProp : JVal → String → Option JVal
  | .str s, k => jsStrGet s k
  | .obj kvs, k => jsObjGet kvs k
  | .num _, k =>
    if k ∈ numberProtoNames ∨ k ∈ objectProtoNames then some (.builtin k)
    else none
  | .builtin _, _ => none

/-- JS property access where the receiver itself may be `undefined`. -/
def jsGet : Option JVal → String → Option JVal
  | none, _ => none
  | some v, k => jsProp v k

/-- JS truthiness of a possibly-undefined modelled value. -/
def jsTruthy : Option JVal → Bool
  | none => false
  | some (.str s) => s != ""
  | some (.obj _) => true
  | some (.num n) => n != 0
  | some (.builtin _) => true

mutual

/-- All string leaves of a modelled value, in field order. -/
def JVal.leaves : JVal → List String
  | .str s => [s]
  | .obj kvs => leavesPairs kvs
  | .num _ => []
  | .builtin _ => []

/-- All string leaves below a field list. -/
def leavesPairs : List (String × JVal) → List String
  | [] => []
  | (_, v) :: rest => v.leaves ++ leavesPairs rest

end

/-- String leaves of a possibly-undefined value. -/
def leavesOpt : Option JVal → List String
  | none => []
  | some v => v.leaves

mutual

/-- The shape of the translation tables (spec §3 invariant): a pure
tree of mappings with nonempty-string leaves — no numbers, no native
values, no empty-string leaf, hence every node JS-truthy. -/
def JVal.tableLike : JVal → Bool
  | .str s => s != ""
  | .obj kvs => tableLikePairs kvs
  | .num _ => false
  | .builtin _ => false

/-- Every value below a field list is table-like. -/
def tableLikePairs : List (String × JVal) → Bool
  | [] => true
  | (_, v) :: rest => v.tableLike && tableLikePairs rest

end

/-- A key segment that names no JavaScript built-in property: not
`length`, not a prototype member of plain objects, strings or numbers,
and not a digit string (hence not a string index).  For such segments,
the source's `translation[k]` on a table node is exactly own-field
lookup on a mapping. -/
def plainSegment (seg : String) : Prop :=
  seg ∉ reservedJsNames ∧ ¬(seg.data.all (fun c => c.isDigit) = true)

instance plainSegmentDecidable (seg : String) : Decidable (plainSegment seg) :=
  inferInstanceAs
    (Decidable (seg ∉ reservedJsNames ∧ ¬(seg.data.all (fun c => c.isDigit) = true)))

/-- Split a character list at every occurrence of `c`, keeping empty
pieces, as JavaScript `split` does. -/
def splitOnChar (c : Char) : List Char → List (List Char)
  | [] => [[]]
  | x :: rest =>
    let r := splitOnChar c rest
    if x = c then [] :: r
    else
      match r with
      | [] => [[x]]
      | h :: t => (x :: h) :: t

/-- JavaScript `key.split('.')`: `""` gives `[""]`, separators at the
edges give empty segments. -/
def jsSplitDot (s : String) : List String :=
  (splitOnChar '.' s.data).map (fun cs => String.mk cs)

/-- The `en` branch of the `nav` translation dictionary
(`api-service.js`, i18n section). -/
def navEn : JVal := .obj
  [("overview", .str "Overview"),
   ("browse", .str "Browse Tables"),
   ("matches", .str "My Matches"),
   ("dates", .str "Upcoming Dates"),
   ("desired_times", .str "Desired Times"),
   ("history", .str "Date History"),
   ("profile", .str "Profile"),
   ("restaurants", .str "Restaurants"),
   ("settings", .str "Settings"),
   ("logout", .str "Logout")]

/-- The `he` branch of the `nav` translation dictionary. -/
def navHe : JVal := .obj
  [("overview", .str "סקירה כללית"),
   ("browse", .str "דפדוף שולחנות"),
   ("matches", .str "ההתאמות שלי"),
   ("dates", .str "פגישות קרובות"),
   ("desired_times", .str "זמנים רצויים"),
   ("history", .str "היסטוריית פגישות"),
   ("profile", .str "פרופיל"),
   ("restaurants", .str "מסעדות"),
   ("settings", .str "הגדרות"),
   ("logout", .str "יציאה")]

/-- The `ar` branch of the `nav` translation dictionary. -/
def navAr : JVal := .obj
  [("overview", .str "نظرة عامة"),
   ("browse", .str "تصفح الطاولات"),
   ("matches", .str "مبارياتي"),
   ("dates", .str "المواعيد القادمة"),
   ("desired_times", .str "الأوقات المرغوبة"),
   ("history", .str "سجل المواعيد"),
   ("profile", .str "الملف الشخصي"),
   ("restaurants", .str "المطاعم"),
   ("settings", .str "الإعدادات"),
   ("logout", .str "تسجيل خروج")]

/-- The `ru` branch of the `nav` translation dictionary. -/
def navRu : JVal := .obj
  [("overview", .str "Обзор"),
   ("browse", .str "Просмотр столиков"),
   ("matches", .str "Мои совпадения"),
   ("dates", .str "Предстоящие свидания"),
   ("desired_times", .str "Желаемое время"),
   ("history", .str "История свиданий"),
   ("profile", .str "Профиль"),
   ("restaurants", .str "Рестораны"),
   ("settings", .str "Настройки"),
   ("logout", .str "Выход")]

/-- Per-locale translation table (key `nav` only, as in the source). -/
def tableEn : JVal := .obj [("nav", navEn)]

/-- Hebrew translation table. -/
def tableHe : JVal := .obj [("nav", navHe)]

/-- Arabic translation table. -/
def tableAr : JVal := .obj [("nav", navAr)]

/-- Russian translation table. -/
def tableRu : JVal := .obj [("nav", navRu)]

/-- The top-level `translations` object literal of `api-service.js`. -/
def translations : List (String × JVal) :=
  [("en", tableEn), ("he", tableHe), ("ar", tableAr), ("ru", tableRu)]

/-- `this.translations[this.currentLang]` — possibly undefined when the
current language is not a configured locale. -/
def tableFor (lang : String) : Option JVal :=
  lookupPairs translations lang

/-- The supported locale codes configured in the switcher. -/
def supportedLocales : List String := ["en", "he", "ar", "ru"]

/-- The loop body of `i18n.t`: for each segment, descend when
`translation && translation[k]` is truthy, otherwise return the original
key immediately; when segments are exhausted return the current node. -/
def tLoop : Option JVal → List String → String → Option JVal
  | tr, [], _ => tr
  | tr, k :: ks, key =>
    if jsTruthy tr && jsTruthy (jsGet tr k) then tLoop (jsGet tr k) ks key
    else some (.str key)

/-- `i18n.t(key)` for a given current language: split the key on dots
and walk the active table with fallback to the key itself. -/
def t (lang : String) (key : String) : Option JVal :=
  tLoop (tableFor lang) (jsSplitDot key) key

/-- The loop body of `i18n.translatePage`: same truthiness-guarded
descent as `tLoop`, but with no `else` branch — a segment that fails the
guard is simply skipped and the walk continues with the next segment. -/
def pageLoop : Option JVal → List String → Option JVal
  | tr, [] => tr
  | tr, k :: ks =>
    if jsTruthy tr && jsTruthy (jsGet tr k) then pageLoop (jsGet tr k) ks
    else pageLoop tr ks

/-- A DOM element as far as the translator observes it: its optional
`data-translate` attribute and its text content. -/
structure Element where
  dataTranslate : Option String
  textContent : String
deriving DecidableEq

/-- One element's treatment by `i18n.translatePage`: elements without
the attribute are not selected; for the others the skipping walk runs
and the text content is overwritten only when the final node is a
string (`typeof translation === 'string'`). -/
def translateElement (lang : String) (e : Element) : Element :=
  match e.dataTranslate with
  | none => e
  | some key =>
    match pageLoop (tableFor lang) (jsSplitDot key) with
    | some (.str s) => { e with textContent := s }
    | _ => e

/-- `i18n.translatePage()`: apply the per-element translator to every
element of the document. -/
def translatePage (lang : String) (doc : List Element) : List Element :=
  doc.map (translateElement lang)

/-- Modelled from the spec (§4.2 Key Resolver): a mapping "contains" a
segment exactly when it is one of its own named fields; no other value
participates in the spec-side walk. -/
def specGet : JVal → String → Option JVal
  | .obj kvs, k => lookupPairs kvs k
  | _, _ => none

/-- Modelled from the spec (§4.2 Key Resolver): the plain segment walk —
descend when the current node is a mapping containing the segment,
abort (`none`) otherwise.  Used to state which keys "resolve". -/
def specWalk : Option JVal → List String → Option JVal
  | none, _ => none
  | some v, [] => some v
  | some v, k :: ks => specWalk (specGet v k) ks

/-- A switcher button (`button.lang-btn`): its text label, whether the
`active` class is set, and its inline background and text colors. -/
structure Btn where
  label : String
  active : Bool
  background : String
  color : String
deriving DecidableEq

/-- A `div.language-switcher`: its buttons and its inline `left` /
`right` style values (`""` means the property is unset). -/
structure Switcher where
  btns : List Btn
  left : String
  right : String
deriving DecidableEq

/-- The document as far as the i18n code observes and mutates it: the
body's `rtl` class and `direction` style, the `.language-switcher`
elements in document order, and the translatable elements. -/
structure Doc where
  bodyRtl : Bool
  bodyDirection : String
  switchers : List Switcher
  elements : List Element
deriving DecidableEq

/-- The durable store as used by this code: its single
`userLanguage` entry (`none` when the key is absent). -/
structure Storage where
  userLanguage : Option String
deriving DecidableEq

/-- The page-lifetime state: `i18n.currentLang`, the document, and the
durable store. -/
structure AppState where
  currentLang : String
  doc : Doc
  storage : Storage
deriving DecidableEq

/-- The `languages` array of `createLanguageSwitcher`:
(code, button label) per supported locale. -/
def languages : List (String × String) :=
  [("en", "EN"), ("he", "HE"), ("ar", "AR"), ("ru", "RU")]

/-- One button as built by `createLanguageSwitcher`: the `active` class
and the highlighted colors exactly when the code is the current one. -/
def mkBtn (currentLang : String) (code : String) (label : String) : Btn :=
  { label := label,
    active := code == currentLang,
    background := if code = currentLang then "#FF6B6B" else "transparent",
    color := if code = currentLang then "white" else "#2D3436" }

/-- The switcher element as freshly built by `createLanguageSwitcher`:
one button per entry of `languages`, positioned `right: 2rem` with
`left` unset. -/
def freshSwitcher (currentLang : String) : Switcher :=
  { btns := languages.map (fun p => mkBtn currentLang p.1 p.2),
    left := "",
    right := "2rem" }

/-- `i18n.createLanguageSwitcher()`: if a `.language-switcher` already
exists, return unchanged; otherwise append one freshly built
switcher. -/
def createLanguageSwitcher (currentLang : String) (d : Doc) : Doc :=
  if d.switchers.isEmpty then
    { d with switchers := d.switchers ++ [freshSwitcher currentLang] }
  else d

/-- The `isActive` predicate of `changeLanguage`'s button-update loop. -/
def btnIsActive (lang : String) (label : String) : Bool :=
  (lang == "en" && label == "EN") || (lang == "he" && label == "HE") ||
  (lang == "ar" && label == "AR") || (lang == "ru" && label == "RU")

/-- One button's restyling in `changeLanguage`. -/
def updateBtn (lang : String) (b : Btn) : Btn :=
  if btnIsActive lang b.label then
    { b with active := true, background := "#FF6B6B", color := "white" }
  else
    { b with active := false, background := "transparent", color := "#2D3436" }

/-- The `querySelectorAll('.lang-btn')` pass of `changeLanguage`:
restyle every switcher button in the document. -/
def updateButtons (lang : String) (d : Doc) : Doc :=
  { d with switchers :=
      d.switchers.map (fun sw => { sw with btns := sw.btns.map (updateBtn lang) }) }

/-- Repositioning of the switcher in the RTL branch of
`applyLanguage`. -/
def switcherRtl (sw : Switcher) : Switcher :=
  { sw with right := "auto", left := "2rem" }

/-- Repositioning of the switcher in the LTR branch of
`applyLanguage`. -/
def switcherLtr (sw : Switcher) : Switcher :=
  { sw with left := "auto", right := "2rem" }

/-- `document.querySelector('.language-switcher')` followed by a style
update: only the first switcher, if any, is modified. -/
def applyFirst (f : Switcher → Switcher) : List Switcher → List Switcher
  | [] => []
  | sw :: rest => f sw :: rest

/-- `i18n.applyLanguage()`: for `he` and `ar`, set the body's `rtl`
class and `direction: rtl` and move the first switcher to the left
edge; for every other current language, clear the class, set
`direction: ltr` and move the first switcher back to the right edge. -/
def applyLanguage (lang : String) (d : Doc) : Doc :=
  if lang = "he" || lang = "ar" then
    { d with
        bodyRtl := true,
        bodyDirection := "rtl",
        switchers := applyFirst switcherRtl d.switchers }
  else
    { d with
        bodyRtl := false,
        bodyDirection := "ltr",
        switchers := applyFirst switcherLtr d.switchers }

/-- `this.translatePage()` acting on the document. -/
def translateDoc (lang : String) (d : Doc) : Doc :=
  { d with elements := translatePage lang d.elements }

/-- The externally visible steps of `changeLanguage`, in the order the
code performs them. -/
inductive Effect where
  | setCurrentLang : String → Effect
  | storageWrite : String → String → Effect
  | updateBtns : String → Effect
  | applyDir : String → Effect
  | translateDocu : String → Effect
  | dispatch : String → String → Effect
deriving DecidableEq

/-- `i18n.changeLanguage(lang)`.  `setItemThrows` models whether
`localStorage.setItem` throws (quota exceeded / storage unavailable).
The result is the new state, the trace of steps that completed, and
whether an exception propagated to the caller.  The code assigns
`this.currentLang` first, then calls `setItem` (unguarded by any
try/catch), then restyles the buttons, re-applies directionality,
re-translates the page, and finally dispatches the `languageChanged`
custom event with detail `{ language: lang }`. -/
def changeLanguage (setItemThrows : Bool) (lang : String) (st : AppState) :
    AppState × List Effect × Bool :=
  let st1 := { st with currentLang := lang }
  if setItemThrows then
    (st1, [Effect.setCurrentLang lang], true)
  else
    let st2 := { st1 with storage := { userLanguage := some lang } }
    let st3 := { st2 with doc := updateButtons lang st2.doc }
    let st4 := { st3 with doc := applyLanguage lang st3.doc }
    let st5 := { st4 with doc := translateDoc lang st4.doc }
    (st5,
     [Effect.setCurrentLang lang,
      Effect.storageWrite "userLanguage" lang,
      Effect.updateBtns lang,
      Effect.applyDir lang,
      Effect.translateDocu lang,
      Effect.dispatch "languageChanged" lang],
     false)

/-- Initialization of `i18n.currentLang`:
`localStorage.getItem('userLanguage') || 'en'` — `getItem` yields `none`
when the key is absent, and `||` falls through exactly on the two falsy
possibilities, absence and the empty string. -/
def initLang (stored : Option String) : String :=
  match stored with
  | none => "en"
  | some s => if s = "" then "en" else s

/-- The `he` entry of `fallbackTranslations`
(`static/js/language-fallback.js`). -/
def fallbackHe : List (String × String) :=
  [("Table for Two", "שולחן לשניים"),
   ("Real Dates. Real People. Real Connections.",
    "דייטים אמיתיים. אנשים אמיתיים. קשרים אמיתיים."),
   ("Login", "התחברות"),
   ("Sign Up", "הרשמה"),
   ("Browse Tables", "עיון בשולחנות"),
   ("My Matches", "ההתאמות שלי"),
   ("Upcoming Dates", "דייטים קרובים"),
   ("Restaurant", "מסעדה"),
   ("Date", "תאריך"),
   ("Time", "זמן")]

/-- The `ar` entry of `fallbackTranslations`. -/
def fallbackAr : List (String × String) :=
  [("Table for Two", "طاولة لاثنين"),
   ("Real Dates. Real People. Real Connections.",
    "مواعيد حقيقية. أشخاص حقيقيون. روابط حقيقية."),
   ("Login", "تسجيل الدخول"),
   ("Sign Up", "اشتراك"),
   ("Browse Tables", "تصفح الطاولات"),
   ("My Matches", "مطابقاتي"),
   ("Upcoming Dates", "المواعيد القادمة"),
   ("Restaurant", "مطعم"),
   ("Date", "التاريخ"),
   ("Time", "الوقت")]

/-- The `ru` entry of `fallbackTranslations`. -/
def fallbackRu : List (String × String) :=
  [("Table for Two", "Столик на двоих"),
   ("Real Dates. Real People. Real Connections.",
    "Настоящие свидания. Настоящие люди. Настоящие связи."),
   ("Login", "Вход"),
   ("Sign Up", "Регистрация"),
   ("Browse Tables", "Обзор столиков"),
   ("My Matches", "Мои совпадения"),
   ("Upcoming Dates", "Предстоящие свидания"),
   ("Restaurant", "Ресторан"),
   ("Date", "Дата"),
   ("Time", "Время")]

/-- The `fallbackTranslations` object of `language-fallback.js`; note
it has no `en` entry. -/
def fallbackTranslations : List (String × List (String × String)) :=
  [("he", fallbackHe), ("ar", fallbackAr), ("ru", fallbackRu)]

/-- `fallbackTranslations[language]`, possibly undefined. -/
def lookupFallback (language : String) : Option (List (String × String)) :=
  match fallbackTranslations.find? (fun p => p.1 == language) with
  | some p => some p.2
  | none => none

/-- One pass of the fallback translator for one English phrase: every
element whose entire text equals the phrase gets the translated text.
The document is viewed as the list of text contents of all elements. -/
def replacePhrase (english : String) (translated : String)
    (doc : List String) : List String :=
  doc.map (fun txt => if txt = english then translated else txt)

/-- `applyFallbackTranslation(language)` of `language-fallback.js`:
return unchanged when the language has no fallback table, otherwise
apply the phrase replacement for each English key in table order. -/
def applyFallbackTranslation (language : String) (doc : List String) :
    List String :=
  match lookupFallback language with
  | none => doc
  | some prs => prs.foldl (fun d p => replacePhrase p.1 p.2 d) doc

/-- A small concrete page state used for concrete evaluations: locale
`en`, empty document, a persisted `en` preference. -/
def doc0 : Doc :=
  { bodyRtl := false, bodyDirection := "", switchers := [], elements := [] }

/-- Concrete app state over `doc0`. -/
def st0 : AppState :=
  { currentLang := "en", doc := doc0, storage := { userLanguage := some "en" } }

/-- Concrete element carrying a translation key, for witnesses. -/
def elW : Element :=
  { dataTranslate := some "nav.overview", textContent := "x" }

/-- Concrete element whose key ends in a string index, for the
non-table-write counterexample. -/
def elX : Element :=
  { dataTranslate := some "nav.overview.0", textContent := "x" }

/-- The switcher as freshly built for current language `ar`. -/
def swAr : Switcher := freshSwitcher "ar"

/-- Concrete document with one switcher present, for witnesses. -/
def docW : Doc :=
  { bodyRtl := false,
    bodyDirection := "ltr",
    switchers := [freshSwitcher "en"],
    elements := [{ dataTranslate := some "nav.overview", textContent := "x" }] }

/-! Helper lemmas. -/

theorem splitOnChar_ne_nil (c : Char) (cs : List Char) :
    splitOnChar c cs ≠ [] := by
  induction cs with
  | nil => simp [splitOnChar]
  | cons x rest ih =>
    simp only [splitOnChar]
    by_cases hx : x = c
    · simp [hx]
    · simp only [hx, if_false]
      cases h : splitOnChar c rest with
      | nil => simp
      | cons hd tl => simp

theorem jsSplitDot_ne_nil (s : String) : jsSplitDot s ≠ [] := by
  simp only [jsSplitDot, ne_eq, List.map_eq_nil_iff]
  exact splitOnChar_ne_nil '.' s.data

theorem splitOnChar_of_not_mem (c : Char) (cs : List Char) (h : c ∉ cs) :
    splitOnChar c cs = [cs] := by
  induction cs with
  | nil => simp [splitOnChar]
  | cons x rest ih =>
    simp only [List.mem_cons, not_or] at h
    simp only [splitOnChar]
    rw [if_neg (fun he => h.1 he.symm), ih h.2]

theorem jsSplitDot_of_no_dot (s : String) (h : '.' ∉ s.data) :
    jsSplitDot s = [s] := by
  simp [jsSplitDot, splitOnChar_of_not_mem '.' s.data h]

theorem pageLoop_none (segs : List String) : pageLoop none segs = none := by
  induction segs with
  | nil => rfl
  | cons k ks ih => simpa [pageLoop, jsTruthy, jsGet] using ih

theorem lookupPairs_tableLike (kvs : List (String × JVal)) (k : String)
    (v : JVal) (hT : tableLikePairs kvs = true) (h : lookupPairs kvs k = some v) :
    v.tableLike = true := by
  induction kvs with
  | nil => simp [lookupPairs] at h
  | cons p rest ih =>
    obtain ⟨k0, w⟩ := p
    simp only [tableLikePairs, Bool.and_eq_true] at hT
    simp only [lookupPairs] at h
    by_cases hk : k = k0
    · rw [if_pos hk] at h
      cases h
      exact hT.1
    · rw [if_neg hk] at h
      exact ih hT.2 h

theorem specGet_tableLike (v w : JVal) (k : String)
    (hT : v.tableLike = true) (h : specGet v k = some w) : w.tableLike = true := by
  cases v with
  | str s => simp [specGet] at h
  | obj kvs =>
    simp only [JVal.tableLike] at hT
    exact lookupPairs_tableLike kvs k w hT h
  | num n => simp [specGet] at h
  | builtin b => simp [specGet] at h

theorem tableLike_truthy (v : JVal) (hT : v.tableLike = true) :
    jsTruthy (some v) = true := by
  cases v with
  | str s => simpa [JVal.tableLike, jsTruthy] using hT
  | obj kvs => rfl
  | num n => simp [JVal.tableLike] at hT
  | builtin b => simp [JVal.tableLike] at hT

theorem jsStrGet_plain (s k : String) (hp : plainSegment k) :
    jsStrGet s k = none := by
  obtain ⟨hres, hdig⟩ := hp
  have hd : k.data.all (fun c => c.isDigit) = false := by
    revert hdig
    cases k.data.all (fun c => c.isDigit) <;> simp
  have hlen : ¬(k = "length") := by
    intro he
    exact hres (by rw [he]; exact List.mem_cons_self _ _)
  have hmem : ¬(k ∈ stringProtoNames ∨ k ∈ objectProtoNames) := by
    intro hor
    apply hres
    simp only [reservedJsNames, List.mem_cons, List.mem_append]
    tauto
  have hidx : ¬(isCanonicalIndexStr k = true ∧ digitsToNat k.data 0 < s.data.length) := by
    intro hand
    have := hand.1
    simp [isCanonicalIndexStr, hd] at this
  unfold jsStrGet
  rw [if_neg hlen, if_neg hidx, if_neg hmem]

theorem jsProp_plain (v : JVal) (k : String)
    (hT : v.tableLike = true) (hp : plainSegment k) :
    jsProp v k = specGet v k := by
  cases v with
  | str s => simp [jsProp, specGet, jsStrGet_plain s k hp]
  | obj kvs =>
    have hno : ¬(k ∈ objectProtoNames) := by
      intro hk
      apply hp.1
      simp only [reservedJsNames, List.mem_cons, List.mem_append]
      tauto
    simp only [jsProp, specGet, jsObjGet]
    cases hl : lookupPairs kvs k with
    | some w => rfl
    | none => rw [if_neg hno]
  | num n => simp [JVal.tableLike] at hT
  | builtin b => simp [JVal.tableLike] at hT

theorem tLoop_of_specWalk_none (segs : List String) (v : JVal) (key : String)
    (hT : v.tableLike = true)
    (hplain : ∀ seg ∈ segs, plainSegment seg)
    (h : specWalk (some v) segs = none) :
    tLoop (some v) segs key = some (.str key) := by
  induction segs generalizing v with
  | nil => simp [specWalk] at h
  | cons k ks ih =>
    simp only [specWalk] at h
    simp only [tLoop, jsGet]
    rw [jsProp_plain v k hT (hplain k (List.mem_cons_self _ _))]
    cases hv : specGet v k with
    | none =>
      simp [jsTruthy]
    | some w =>
      rw [hv] at h
      have hTw := specGet_tableLike v w k hT hv
      rw [tableLike_truthy v hT, tableLike_truthy w hTw]
      simpa using ih w hTw (fun seg hs => hplain seg (List.mem_cons_of_mem _ hs)) h

theorem tLoop_of_specWalk_some (segs : List String) (v u : JVal) (key : String)
    (hT : v.tableLike = true) (h : specWalk (some v) segs = some u) :
    tLoop (some v) segs key = some u := by
  induction segs generalizing v with
  | nil =>
    simp only [specWalk, Option.some.injEq] at h
    simp [tLoop, h]
  | cons k ks ih =>
    simp only [specWalk] at h
    simp only [tLoop, jsGet]
    cases hv : specGet v k with
    | none =>
      rw [hv] at h
      simp [specWalk] at h
    | some w =>
      rw [hv] at h
      have hjs : jsProp v k = some w := by
        cases v with
        | str s => simp [specGet] at hv
        | obj kvs =>
          simp only [specGet] at hv
          simp [jsProp, jsObjGet, hv]
        | num n => simp [specGet] at hv
        | builtin b => simp [specGet] at hv
      rw [hjs]
      have hTw := specGet_tableLike v w k hT hv
      rw [tableLike_truthy v hT, tableLike_truthy w hTw]
      simpa using ih w hTw h

theorem tableFor_tableLike (lang : String) (v : JVal)
    (h : tableFor lang = some v) : v.tableLike = true := by
  simp only [tableFor, translations, lookupPairs] at h
  by_cases h1 : lang = "en"
  · rw [if_pos h1] at h
    cases h
    decide
  · rw [if_neg h1] at h
    by_cases h2 : lang = "he"
    · rw [if_pos h2] at h
      cases h
      decide
    · rw [if_neg h2] at h
      by_cases h3 : lang = "ar"
      · rw [if_pos h3] at h
        cases h
        decide
      · rw [if_neg h3] at h
        by_cases h4 : lang = "ru"
        · rw [if_pos h4] at h
          cases h
          decide
        · rw [if_neg h4] at h
          cases h

theorem specWalk_none (segs : List String) : specWalk none segs = none := by
  cases segs <;> rfl

/-! Claim theorems. -/

/-- C1 (counterexample): `changeLanguage` performs no validation — from
a state whose active locale is `en`, changing to the unsupported code
`xx` both applies it (the active locale becomes `xx`, no longer `en`)
and persists it to durable storage, contradicting the claim that an
unsupported code leaves the locale unchanged and is never persisted. -/
theorem changeLanguage_unvalidated_cex :
    (changeLanguage false "xx" st0).1.currentLang = "xx"
    ∧ (changeLanguage false "xx" st0).1.currentLang ≠ "en"
    ∧ (changeLanguage false "xx" st0).1.storage.userLanguage = some "xx"
    ∧ "xx" ∉ supportedLocales := by decide

/-- C1 (amended): `setLocale(X)` followed by `getActiveLocale()`
returns `X` for every code `X`, supported or not: `changeLanguage`
validates nothing, so an unsupported code is applied to the in-memory
active locale and persisted to durable storage exactly like a supported
one. -/
theorem changeLanguage_applies_any_code (st : AppState) (lang : String) :
    (changeLanguage false lang st).1.currentLang = lang
    ∧ (changeLanguage false lang st).1.storage.userLanguage = some lang :=
  ⟨rfl, rfl⟩

/-- C2 (counterexample): three keys on which `t` does not return the
original key although the table walk does not end on a table string
leaf: for `nav` the walk completes on a mapping (the `nav` subtree) and
`t` returns the mapping object itself; for the empty key the walk
aborts and `t` returns the empty key, an empty string; and for
`nav.overview.length` the leaf `Overview` is not silently missing the
segment — JavaScript string property access finds `length` — so `t`
returns the number 8 rather than the key. -/
theorem t_prefix_returns_mapping_cex :
    (t "en" "nav" = some navEn
      ∧ t "en" "nav" ≠ some (JVal.str "nav"))
    ∧ t "en" "" = some (JVal.str "")
    ∧ t "en" "nav.overview.length" = some (JVal.num 8) := by
  refine ⟨⟨rfl, ?_⟩, rfl, rfl⟩
  intro h
  rw [show t "en" "nav" = some navEn from rfl] at h
  simp [navEn] at h

/-- C2 (amended): when the segment walk completes, `t` returns the
final node itself — a key that is a proper prefix of leaf paths yields
the inner mapping object, not the key.  The fallback-to-key law holds
for aborting walks whose segments name no JavaScript built-in property
(`length`, prototype members, digit strings): for every such key whose
walk aborts — including under a wholly unconfigured locale — `t`
returns the original dotted key unchanged and, being a total function,
never throws.  (Keys that do collide with built-ins may instead descend
into native properties, as the counterexample's `nav.overview.length`
shows.)  The abort fallback returns the key itself, hence a nonempty
string whenever the key is nonempty. -/
theorem t_fallback_law (L K : String) :
    ((∀ seg ∈ jsSplitDot K, plainSegment seg) →
      specWalk (tableFor L) (jsSplitDot K) = none → t L K = some (JVal.str K))
    ∧ (∀ v, specWalk (tableFor L) (jsSplitDot K) = some v → t L K = some v) := by
  constructor
  · intro hplain h
    cases hT : tableFor L with
    | none =>
      unfold t
      rw [hT]
      cases hs : jsSplitDot K with
      | nil => exact absurd hs (jsSplitDot_ne_nil K)
      | cons k ks => rfl
    | some v =>
      unfold t
      rw [hT]
      rw [hT] at h
      exact tLoop_of_specWalk_none _ v K (tableFor_tableLike L v hT) hplain h
  · intro v h
    cases hT : tableFor L with
    | none =>
      rw [hT, specWalk_none] at h
      cases h
    | some w =>
      unfold t
      rw [hT]
      rw [hT] at h
      exact tLoop_of_specWalk_some _ w v K (tableFor_tableLike L w hT) h

/-- C2 (witness): the unresolvable key `missing.key` — whose segments
collide with no JavaScript built-in property — falls back to itself
under the `en` locale. -/
theorem t_fallback_law_witness :
    t "en" "missing.key" = some (JVal.str "missing.key") :=
  (t_fallback_law "en" "missing.key").1 (by decide) rfl

/-- C3 (counterexample): a persisted value outside the supported set is
not defaulted: initialization from the stored value `xx` yields active
locale `xx`, not `en`. -/
theorem initLang_invalid_value_cex :
    initLang (some "xx") = "xx" ∧ "xx" ∉ supportedLocales ∧ "xx" ≠ "en" := by
  decide

/-- C3 (amended): at initialization the active locale defaults to `en`
exactly when the persisted preference is absent or the empty string;
every other persisted value — supported or not — is applied as-is, with
no validation against the supported set. -/
theorem initLang_default_law :
    initLang none = "en" ∧ initLang (some "") = "en"
    ∧ ∀ s : String, s ≠ "" → initLang (some s) = s := by
  refine ⟨rfl, rfl, fun s hs => ?_⟩
  simp [initLang, hs]

/-- C3 (witness): the stored (invalid) value `xx` is applied as-is. -/
theorem initLang_default_law_witness : initLang (some "xx") = "xx" :=
  initLang_default_law.2.2 "xx" (by decide)

/-- C4 (counterexample): when `localStorage.setItem` throws during a
locale change, the exception propagates out of `changeLanguage` and the
re-render does not happen: neither directionality re-application nor
page re-translation nor the `languageChanged` broadcast occurs,
contradicting the claim that re-render still happens and no exception
escapes. -/
theorem changeLanguage_storage_failure_cex :
    (changeLanguage true "he" st0).2.2 = true
    ∧ Effect.applyDir "he" ∉ (changeLanguage true "he" st0).2.1
    ∧ Effect.translateDocu "he" ∉ (changeLanguage true "he" st0).2.1
    ∧ Effect.dispatch "languageChanged" "he" ∉ (changeLanguage true "he" st0).2.1 := by
  decide

/-- C4 (amended): if the durable-storage write throws, the in-memory
active locale is still updated (the assignment precedes the write), but
nothing else happens — storage and document are untouched, the only
completed step is the in-memory assignment — and the exception
propagates out of `changeLanguage` to the caller. -/
theorem changeLanguage_storage_failure_behavior (st : AppState) (lang : String) :
    changeLanguage true lang st =
      ({ st with currentLang := lang }, [Effect.setCurrentLang lang], true) :=
  rfl

theorem applyLanguage_rtl_eq (lang : String) (d : Doc)
    (h : lang = "he" ∨ lang = "ar") :
    applyLanguage lang d =
      { d with
          bodyRtl := true,
          bodyDirection := "rtl",
          switchers := applyFirst switcherRtl d.switchers } := by
  have hb : (decide (lang = "he") || decide (lang = "ar")) = true := by
    rcases h with h | h <;> simp [h]
  simp only [applyLanguage]
  rw [if_pos hb]

theorem applyLanguage_ltr_eq (lang : String) (d : Doc)
    (h : ¬(lang = "he" ∨ lang = "ar")) :
    applyLanguage lang d =
      { d with
          bodyRtl := false,
          bodyDirection := "ltr",
          switchers := applyFirst switcherLtr d.switchers } := by
  rw [not_or] at h
  simp only [applyLanguage]
  rw [if_neg (by simp [h.1, h.2])]

theorem applyFirst_idem (f : Switcher → Switcher)
    (hf : ∀ sw, f (f sw) = f sw) (l : List Switcher) :
    applyFirst f (applyFirst f l) = applyFirst f l := by
  cases l with
  | nil => rfl
  | cons sw rest => simp [applyFirst, hf]

/-- C5: directionality is a pure function of the active locale: for
`he` and `ar`, `applyLanguage` sets the body's RTL class and `rtl`
direction and moves the (first) switcher to the left edge
(`left: 2rem`, `right: auto`); for every other locale it clears the
class, sets `ltr` and restores the default right-edge position
(`left: auto`, `right: 2rem`); and applying it twice for a fixed locale
equals applying it once. -/
theorem applyLanguage_directionality (lang : String) (d : Doc) :
    ((lang = "he" ∨ lang = "ar") →
      (applyLanguage lang d).bodyRtl = true
      ∧ (applyLanguage lang d).bodyDirection = "rtl"
      ∧ ∀ sw rest, d.switchers = sw :: rest →
          (applyLanguage lang d).switchers = switcherRtl sw :: rest
          ∧ (switcherRtl sw).left = "2rem" ∧ (switcherRtl sw).right = "auto")
    ∧ (¬(lang = "he" ∨ lang = "ar") →
      (applyLanguage lang d).bodyRtl = false
      ∧ (applyLanguage lang d).bodyDirection = "ltr"
      ∧ ∀ sw rest, d.switchers = sw :: rest →
          (applyLanguage lang d).switchers = switcherLtr sw :: rest
          ∧ (switcherLtr sw).left = "auto" ∧ (switcherLtr sw).right = "2rem")
    ∧ applyLanguage lang (applyLanguage lang d) = applyLanguage lang d := by
  refine ⟨fun h => ?_, fun h => ?_, ?_⟩
  · rw [applyLanguage_rtl_eq lang d h]
    refine ⟨rfl, rfl, fun sw rest hsw => ?_⟩
    simp [applyFirst, hsw, switcherRtl]
  · rw [applyLanguage_ltr_eq lang d h]
    refine ⟨rfl, rfl, fun sw rest hsw => ?_⟩
    simp [applyFirst, hsw, switcherLtr]
  · by_cases h : lang = "he" ∨ lang = "ar"
    · rw [applyLanguage_rtl_eq lang d h, applyLanguage_rtl_eq lang _ h]
      simp [applyFirst_idem switcherRtl (fun sw => rfl)]
    · rw [applyLanguage_ltr_eq lang d h, applyLanguage_ltr_eq lang _ h]
      simp [applyFirst_idem switcherLtr (fun sw => rfl)]

/-- C5 (witness): the theorem applied at `he` (RTL branch) and at `en`
(LTR branch) on a document with one switcher. -/
theorem applyLanguage_directionality_witness :
    ((applyLanguage "he" docW).bodyRtl = true
      ∧ (applyLanguage "he" docW).bodyDirection = "rtl"
      ∧ ∀ sw rest, docW.switchers = sw :: rest →
          (applyLanguage "he" docW).switchers = switcherRtl sw :: rest
          ∧ (switcherRtl sw).left = "2rem" ∧ (switcherRtl sw).right = "auto")
    ∧ ((applyLanguage "en" docW).bodyRtl = false
      ∧ (applyLanguage "en" docW).bodyDirection = "ltr"
      ∧ ∀ sw rest, docW.switchers = sw :: rest →
          (applyLanguage "en" docW).switchers = switcherLtr sw :: rest
          ∧ (switcherLtr sw).left = "auto" ∧ (switcherLtr sw).right = "2rem") :=
  ⟨(applyLanguage_directionality "he" docW).1 (Or.inl rfl),
   (applyLanguage_directionality "en" docW).2.1 (by decide)⟩

/-- C6: on a locale change to a supported code `L` with working
storage, all steps complete before control returns, in the code's
order: in-memory locale update, persistence of `L` under
`userLanguage`, switcher-button restyling, directionality
re-application, re-translation of every tagged element, and the
`languageChanged` broadcast with payload language `L`; and the final
state reflects exactly those steps applied in that order. -/
theorem changeLanguage_order (st : AppState) (L : String)
    (_hL : L ∈ supportedLocales) :
    (changeLanguage false L st).2.1 =
      [Effect.setCurrentLang L, Effect.storageWrite "userLanguage" L,
       Effect.updateBtns L, Effect.applyDir L, Effect.translateDocu L,
       Effect.dispatch "languageChanged" L]
    ∧ (changeLanguage false L st).2.2 = false
    ∧ (changeLanguage false L st).1.currentLang = L
    ∧ (changeLanguage false L st).1.storage.userLanguage = some L
    ∧ (changeLanguage false L st).1.doc =
        translateDoc L (applyLanguage L (updateButtons L st.doc)) :=
  ⟨rfl, rfl, rfl, rfl, rfl⟩

/-- C6 (witness): the click-`RU`-while-on-`en` scenario at the concrete
state `st0`. -/
theorem changeLanguage_order_witness :
    (changeLanguage false "ru" st0).2.1 =
      [Effect.setCurrentLang "ru", Effect.storageWrite "userLanguage" "ru",
       Effect.updateBtns "ru", Effect.applyDir "ru", Effect.translateDocu "ru",
       Effect.dispatch "languageChanged" "ru"]
    ∧ (changeLanguage false "ru" st0).2.2 = false
    ∧ (changeLanguage false "ru" st0).1.currentLang = "ru"
    ∧ (changeLanguage false "ru" st0).1.storage.userLanguage = some "ru"
    ∧ (changeLanguage false "ru" st0).1.doc =
        translateDoc "ru" (applyLanguage "ru" (updateButtons "ru" st0.doc)) :=
  changeLanguage_order st0 "ru" (by decide)

theorem translateElement_attr (lang : String) (e : Element) :
    (translateElement lang e).dataTranslate = e.dataTranslate := by
  unfold translateElement
  cases h : e.dataTranslate with
  | none => simp [h]
  | some key =>
    cases hr : pageLoop (tableFor lang) (jsSplitDot key) with
    | none => simp [hr, h]
    | some v => cases v <;> simp [hr, h]

theorem translateElement_idem (lang : String) (e : Element) :
    translateElement lang (translateElement lang e) = translateElement lang e := by
  cases h : e.dataTranslate with
  | none =>
    have h1 : translateElement lang e = e := by simp [translateElement, h]
    rw [h1, h1]
  | some key =>
    cases hr : pageLoop (tableFor lang) (jsSplitDot key) with
    | none =>
      have h1 : translateElement lang e = e := by simp [translateElement, h, hr]
      rw [h1, h1]
    | some v =>
      cases v with
      | str s =>
        have h1 : translateElement lang e = { e with textContent := s } := by
          simp [translateElement, h, hr]
        rw [h1]
        simp [translateElement, h, hr]
      | obj kvs =>
        have h1 : translateElement lang e = e := by simp [translateElement, h, hr]
        rw [h1, h1]
      | num n =>
        have h1 : translateElement lang e = e := by simp [translateElement, h, hr]
        rw [h1, h1]
      | builtin b =>
        have h1 : translateElement lang e = e := by simp [translateElement, h, hr]
        rw [h1, h1]

/-- C7: the attribute-keyed translator is idempotent for a fixed
locale: running `translatePage` twice yields exactly the same document
as running it once, because each run recomputes from the
`data-translate` attribute — which every run preserves (second
conjunct) — never from the previously rendered text. -/
theorem translatePage_idempotent (lang : String) (doc : List Element) :
    translatePage lang (translatePage lang doc) = translatePage lang doc
    ∧ (translatePage lang doc).map (fun e => e.dataTranslate)
        = doc.map (fun e => e.dataTranslate) := by
  constructor
  · simp only [translatePage, List.map_map]
    congr 1
    funext e
    exact translateElement_idem lang e
  · simp only [translatePage, List.map_map]
    congr 1
    funext e
    exact translateElement_attr lang e

/-- C8: the DOM-wide search-and-replace fallback translator is lossy —
two distinct documents (the English original and an already-translated
one) collapse to the same document after one application, so the
original is not recoverable — and hence not lossless across languages:
applying `ar` after `he` differs from applying `ar` directly to the
original document. -/
theorem applyFallbackTranslation_lossy :
    (applyFallbackTranslation "he" ["Login"]
        = applyFallbackTranslation "he" ["התחברות"]
      ∧ ["Login"] ≠ (["התחברות"] : List String))
    ∧ applyFallbackTranslation "ar" (applyFallbackTranslation "he" ["Login"])
        ≠ applyFallbackTranslation "ar" ["Login"] := by
  decide

/-- C9: switcher construction is idempotent: with a switcher already in
the document nothing is created; from a switcher-free document exactly
one switcher appears, bearing one control per supported locale in
order, with at most one control active — exactly the current-locale one
when the current locale is supported; and the document never goes from
at most one switcher to more than one. -/
theorem createLanguageSwitcher_idempotent (lang : String) (d : Doc) :
    (d.switchers ≠ [] → createLanguageSwitcher lang d = d)
    ∧ (d.switchers.length ≤ 1 →
        (createLanguageSwitcher lang d).switchers.length ≤ 1)
    ∧ createLanguageSwitcher lang (createLanguageSwitcher lang d)
        = createLanguageSwitcher lang d
    ∧ (d.switchers = [] → ∀ sw,
        (createLanguageSwitcher lang d).switchers = [sw] →
          sw.btns.map (fun b => b.label) = ["EN", "HE", "AR", "RU"]
          ∧ (sw.btns.filter (fun b => b.active)).length ≤ 1
          ∧ (lang ∈ supportedLocales →
              (sw.btns.filter (fun b => b.active)).map (fun b => b.label)
                = (languages.filter (fun p => p.1 == lang)).map (fun p => p.2))) := by
  refine ⟨fun h => ?_, fun h => ?_, ?_, fun hd sw hsw => ?_⟩
  · cases hs : d.switchers with
    | nil => exact absurd hs h
    | cons a l => simp [createLanguageSwitcher, hs]
  · cases hs : d.switchers with
    | nil => simp [createLanguageSwitcher, hs]
    | cons a l =>
      rw [hs] at h
      simpa [createLanguageSwitcher, hs] using h
  · cases hs : d.switchers with
    | nil => simp [createLanguageSwitcher, hs]
    | cons a l => simp [createLanguageSwitcher, hs]
  · rw [show sw = freshSwitcher lang from by
      simp [createLanguageSwitcher, hd] at hsw
      exact hsw.symm]
    rw [freshSwitcher]
    by_cases h1 : lang = "en"
    · subst h1
      exact ⟨by decide, by decide, fun _ => by decide⟩
    · by_cases h2 : lang = "he"
      · subst h2
        exact ⟨by decide, by decide, fun _ => by decide⟩
      · by_cases h3 : lang = "ar"
        · subst h3
          exact ⟨by decide, by decide, fun _ => by decide⟩
        · by_cases h4 : lang = "ru"
          · subst h4
            exact ⟨by decide, by decide, fun _ => by decide⟩
          · have e1 : ("en" == lang) = false := beq_eq_false_iff_ne.mpr (Ne.symm h1)
            have e2 : ("he" == lang) = false := beq_eq_false_iff_ne.mpr (Ne.symm h2)
            have e3 : ("ar" == lang) = false := beq_eq_false_iff_ne.mpr (Ne.symm h3)
            have e4 : ("ru" == lang) = false := beq_eq_false_iff_ne.mpr (Ne.symm h4)
            refine ⟨by simp [languages, mkBtn], ?_, fun hmem => ?_⟩
            · simp [languages, mkBtn, List.filter, e1, e2, e3, e4]
            · exact absurd hmem (by simp [supportedLocales, h1, h2, h3, h4])

/-- C9 (witness): constructing from the empty document with current
locale `ar` yields the four controls with `AR` the only active one. -/
theorem createLanguageSwitcher_idempotent_witness :
    swAr.btns.map (fun b => b.label) = ["EN", "HE", "AR", "RU"]
    ∧ (swAr.btns.filter (fun b => b.active)).length ≤ 1
    ∧ (swAr.btns.filter (fun b => b.active)).map (fun b => b.label)
        = (languages.filter (fun p => p.1 == "ar")).map (fun p => p.2) := by
  have h := (createLanguageSwitcher_idempotent "ar" doc0).2.2.2 rfl swAr rfl
  exact ⟨h.1, h.2.1, h.2.2 (by decide)⟩

theorem lookupPairs_leaves (kvs : List (String × JVal)) (k : String) (w : JVal)
    (h : lookupPairs kvs k = some w) : ∀ s ∈ w.leaves, s ∈ leavesPairs kvs := by
  induction kvs with
  | nil => simp [lookupPairs] at h
  | cons p rest ih =>
    obtain ⟨k0, v⟩ := p
    simp only [lookupPairs] at h
    intro s hs
    by_cases hk : k = k0
    · rw [if_pos hk] at h
      cases h
      simp only [leavesPairs, List.mem_append]
      exact Or.inl hs
    · rw [if_neg hk] at h
      simp only [leavesPairs, List.mem_append]
      exact Or.inr (ih h s hs)

theorem specGet_leaves (v w : JVal) (k : String) (h : specGet v k = some w) :
    ∀ s ∈ w.leaves, s ∈ v.leaves := by
  cases v with
  | str s0 => simp [specGet] at h
  | obj kvs =>
    intro s hs
    simpa [JVal.leaves] using lookupPairs_leaves kvs k w h s hs
  | num n => simp [specGet] at h
  | builtin b => simp [specGet] at h

theorem pageLoop_leaves (segs : List String) (v : JVal) (s : String)
    (hT : v.tableLike = true)
    (hplain : ∀ seg ∈ segs, plainSegment seg)
    (h : pageLoop (some v) segs = some (.str s)) : s ∈ v.leaves := by
  induction segs generalizing v with
  | nil =>
    simp only [pageLoop, Option.some.injEq] at h
    rw [h]
    simp [JVal.leaves]
  | cons k ks ih =>
    simp only [pageLoop] at h
    rw [show jsGet (some v) k = specGet v k from
      jsProp_plain v k hT (hplain k (List.mem_cons_self _ _))] at h
    cases hg : specGet v k with
    | none =>
      rw [hg] at h
      rw [if_neg (by simp [jsTruthy])] at h
      exact ih v hT (fun seg hs => hplain seg (List.mem_cons_of_mem _ hs)) h
    | some w =>
      rw [hg] at h
      have hTw := specGet_tableLike v w k hT hg
      rw [if_pos (by rw [tableLike_truthy v hT, tableLike_truthy w hTw]; rfl)] at h
      exact specGet_leaves v w k hg s
        (ih w hTw (fun seg hs => hplain seg (List.mem_cons_of_mem _ hs)) h)

theorem pageLoop_nav_mem (nv : JVal) (segs : List String) (s : String)
    (hplain : ∀ seg ∈ segs, plainSegment seg)
    (h : pageLoop (some (.obj [("nav", nv)])) segs = some (.str s)) :
    "nav" ∈ segs := by
  induction segs with
  | nil => simp [pageLoop] at h
  | cons k ks ih =>
    by_cases hk : k = "nav"
    · rw [hk]
      exact List.mem_cons_self _ _
    · simp only [pageLoop] at h
      have hno : ¬(k ∈ objectProtoNames) := by
        have hp := hplain k (List.mem_cons_self _ _)
        intro hkm
        apply hp.1
        simp only [reservedJsNames, List.mem_cons, List.mem_append]
        tauto
      rw [show jsGet (some (.obj [("nav", nv)])) k = none from by
        simp only [jsGet, jsProp, jsObjGet, lookupPairs]
        rw [if_neg hk, if_neg hno]] at h
      rw [if_neg (by simp [jsTruthy])] at h
      exact List.mem_cons_of_mem _
        (ih (fun seg hs => hplain seg (List.mem_cons_of_mem _ hs)) h)

theorem tableFor_cases (lang : String) (v : JVal) (h : tableFor lang = some v) :
    (∃ nv, v = JVal.obj [("nav", nv)])
    ∧ ∀ s ∈ v.leaves, ('.' ∉ s.data) ∧ s ≠ "nav" := by
  simp only [tableFor, translations, lookupPairs] at h
  by_cases h1 : lang = "en"
  · rw [if_pos h1] at h
    cases h
    exact ⟨⟨navEn, rfl⟩, by decide⟩
  · rw [if_neg h1] at h
    by_cases h2 : lang = "he"
    · rw [if_pos h2] at h
      cases h
      exact ⟨⟨navHe, rfl⟩, by decide⟩
    · rw [if_neg h2] at h
      by_cases h3 : lang = "ar"
      · rw [if_pos h3] at h
        cases h
        exact ⟨⟨navAr, rfl⟩, by decide⟩
      · rw [if_neg h3] at h
        by_cases h4 : lang = "ru"
        · rw [if_pos h4] at h
          cases h
          exact ⟨⟨navRu, rfl⟩, by decide⟩
        · rw [if_neg h4] at h
          cases h

/-- C10 (counterexample): `translatePage` can write a string that is
not in the active locale's translation table: the element tagged
`nav.overview.0` has its text set to `O` — JavaScript string indexing
into the leaf `Overview` — which is no leaf of the `en` table, so the
claim that only table strings are ever written is false. -/
theorem translatePage_nonTable_write_cex :
    (translateElement "en" elX).textContent = "O"
    ∧ "O" ∉ leavesOpt (tableFor "en")
    ∧ translateElement "en" elX ≠ elX
    ∧ elX.dataTranslate = some "nav.overview.0" := by
  refine ⟨rfl, by decide, ?_, rfl⟩
  intro h
  have : (translateElement "en" elX).textContent = elX.textContent := by rw [h]
  rw [show (translateElement "en" elX).textContent = "O" from rfl] at this
  simp [elX] at this

/-- C10 (amended): `translatePage` is the per-element map of
`translateElement`; an element without the `data-translate` attribute
is never modified; and the `data-translate` attribute itself is always
preserved.  For every key whose segments name no JavaScript built-in
property (no `length`, prototype member or digit string): if the walk
does not end on a string the element is left entirely unchanged, and
if it ends on a string `s` then the element's text becomes `s`, with
`s` a leaf of the active locale's translation table and never the raw
key itself.  Keys that do collide with built-ins can have non-table
strings written, as the counterexample's `nav.overview.0` shows. -/
theorem translatePage_frame (lang : String) (doc : List Element) (e : Element) :
    translatePage lang doc = doc.map (translateElement lang)
    ∧ (e.dataTranslate = none → translateElement lang e = e)
    ∧ ∀ key, e.dataTranslate = some key →
        (translateElement lang e).dataTranslate = some key
        ∧ ((∀ seg ∈ jsSplitDot key, plainSegment seg) →
            ((∀ s, pageLoop (tableFor lang) (jsSplitDot key) ≠ some (JVal.str s)) →
                translateElement lang e = e)
            ∧ ∀ s, pageLoop (tableFor lang) (jsSplitDot key) = some (JVal.str s) →
                (translateElement lang e).textContent = s
                ∧ s ∈ leavesOpt (tableFor lang)
                ∧ s ≠ key) := by
  refine ⟨rfl, fun h => by simp [translateElement, h], fun key hk =>
    ⟨by rw [translateElement_attr lang e]; exact hk,
     fun hplain => ⟨fun hns => ?_, fun s hs => ?_⟩⟩⟩
  · cases hr : pageLoop (tableFor lang) (jsSplitDot key) with
    | none => simp [translateElement, hk, hr]
    | some v =>
      cases v with
      | str s => exact absurd hr (hns s)
      | obj kvs => simp [translateElement, hk, hr]
      | num n => simp [translateElement, hk, hr]
      | builtin b => simp [translateElement, hk, hr]
  · refine ⟨by simp [translateElement, hk, hs], ?_⟩
    cases hT : tableFor lang with
    | none =>
      rw [hT, pageLoop_none] at hs
      cases hs
    | some v =>
      rw [hT] at hs
      have hmem : s ∈ v.leaves :=
        pageLoop_leaves (jsSplitDot key) v s (tableFor_tableLike lang v hT) hplain hs
      refine ⟨by simp [leavesOpt, hmem], ?_⟩
      intro heq
      subst heq
      obtain ⟨⟨nv, hnv⟩, hleaf⟩ := tableFor_cases lang v hT
      have hprops := hleaf s hmem
      have hnav : "nav" ∈ jsSplitDot s := by
        apply pageLoop_nav_mem nv _ s hplain
        rw [← hnv]
        exact hs
      rw [jsSplitDot_of_no_dot s hprops.1] at hnav
      simp only [List.mem_singleton] at hnav
      exact hprops.2 hnav.symm

/-- C10 (witness): the tagged element `elW` with the built-in-free key
`nav.overview` under `en` gets the table leaf `Overview` written, keeps
its attribute, and the written string is a table leaf distinct from the
key. -/
theorem translatePage_frame_witness :
    (translateElement "en" elW).dataTranslate = some "nav.overview"
    ∧ (translateElement "en" elW).textContent = "Overview"
    ∧ "Overview" ∈ leavesOpt (tableFor "en")
    ∧ "Overview" ≠ "nav.overview" := by
  have h := (translatePage_frame "en" [] elW).2.2 "nav.overview" rfl
  have hp := (h.2 (by decide)).2 "Overview" rfl
  exact ⟨h.1, hp.1, hp.2.1, hp.2.2⟩

end I18n
